import Mathlib

/-!
Verification of the Sunbreeze micro-framework's router and dispatcher.

The development shallowly embeds the two front ends of the repository:

* `src/sunbreeze/wsgi.py` — the synchronous WSGI application
  (`Sunbreeze.add_route`, `Sunbreeze.find_handler`,
  `Sunbreeze.handle_request`, `Sunbreeze.default_response`).  Its path
  matching delegates to the third-party `parse` library, called as
  `parse(path, request_path)` with default options: the format is matched
  against the whole string, literal characters compare case-insensitively
  (ASCII range modelled here), and a `\x7bname\x7d` field matches a non-empty
  run of characters non-greedily (regex `.+?`), with named fields collected
  into `Result.named`.
* `src/sunbreeze/__init__.py` — the asynchronous class-based front end
  (`BaseView.dispatch`, `BaseView.__call__`).

Python exceptions are embedded as `Except` results; Python strings as
`String` / `List Char`; the per-request construction of handler instances
(`handler()` in `handle_request`) as an explicit allocation counter.
-/

/-! ## Path pattern matcher (the `parse` library as used by `find_handler`) -/

/-- A compiled token of a `parse` format string: a literal character or a
named field `\x7bname\x7d`. -/
inductive Tok where
  | lit (c : Char)
  | field (name : String)
deriving DecidableEq, Repr

/-- ASCII lowering of a character code, the comparison key used by
`re.IGNORECASE` on the ASCII range (uppercase letters 65–90 map to 97–122). -/
def lowerN (n : Nat) : Nat := if 65 ≤ n ∧ n ≤ 90 then n + 32 else n

/-- Case-insensitive character comparison used for literal format characters. -/
def chEq (a b : Char) : Bool := lowerN a.toNat == lowerN b.toNat

/-- Tokenizer state machine for a `parse` format string: outside a field
(`none`) a `\x7b` opens a field, any other character is a literal; inside a
field (`some acc`) characters accumulate until the closing `\x7d`.  An
unterminated field at the end of the format degrades to literals. -/
def tokenizeAux : Option (List Char) → List Char → List Tok
  | none, [] => []
  | none, c :: rest =>
      if c = '{' then tokenizeAux (some []) rest
      else .lit c :: tokenizeAux none rest
  | some acc, [] => ('{' :: acc).map .lit
  | some acc, c :: rest =>
      if c = '}' then .field (String.mk acc) :: tokenizeAux none rest
      else tokenizeAux (some (acc ++ [c])) rest

/-- Compile a `parse` format string into tokens. -/
def tokenize (l : List Char) : List Tok := tokenizeAux none l

mutual
/-- Match a token list against a string (both ends anchored, as `parse`
anchors its compiled regex).  A field matches non-greedily via `pfield`. -/
def pmatch : List Tok → List Char → Option (List (String × List Char))
  | [], [] => some []
  | [], _ :: _ => none
  | .lit _ :: _, [] => none
  | .lit c :: ts, d :: ds => if chEq c d then pmatch ts ds else none
  | .field n :: ts, s => pfield n (fun r => pmatch ts r) [] s

/-- Non-greedy scan for a field: after consuming at least one character,
try the continuation on the remainder, extending the consumed prefix one
character at a time (shortest match first, the semantics of `.+?`). -/
def pfield (n : String) (k : List Char → Option (List (String × List Char))) :
    List Char → List Char → Option (List (String × List Char))
  | _, [] => none
  | acc, d :: ds =>
      match k ds with
      | some bs => some ((n, acc ++ [d]) :: bs)
      | none => pfield n k (acc ++ [d]) ds
end

/-- The call `parse(pattern, path)` of `find_handler`, reduced to its named
result: `none` models a failed parse, `some m` models `Result.named` (fields
with empty names are positional in `parse` and do not appear in `named`). -/
def parseMatch (pattern path : String) : Option (List (String × String)) :=
  (pmatch (tokenize pattern.data) path.data).map
    (fun bs => (bs.filter (fun b => !(b.1 == ""))).map (fun b => (b.1, String.mk b.2)))

/-- Split a path into its `/`-delimited segments (the segment view used by
the specification's Path Pattern Matcher contract). -/
def splitSlash : List Char → List (List Char)
  | [] => [[]]
  | c :: rest =>
      if c = '/' then [] :: splitSlash rest
      else
        match splitSlash rest with
        | s :: ss => (c :: s) :: ss
        | [] => [[c]]

/-- Substring occurrence test (needle occurs contiguously in haystack). -/
def startsWithL : List Char → List Char → Bool
  | [], _ => true
  | _ :: _, [] => false
  | a :: as, b :: bs => a == b && startsWithL as bs

/-- Containment of one character list in another. -/
def containsL (ns : List Char) : List Char → Bool
  | [] => startsWithL ns []
  | hay@(_ :: rest) => startsWithL ns hay || containsL ns rest

/-- Containment of one string in another. -/
def containsStr (needle hay : String) : Bool := containsL needle.data hay.data

/-- ASCII lowering of one character (Python's `str.lower` on the method
names the dispatchers lowercase; HTTP method names are ASCII). -/
def charLower (c : Char) : Char :=
  if 65 ≤ c.toNat ∧ c.toNat ≤ 90 then Char.ofNat (c.toNat + 32) else c

/-- Python's `str.lower()` as applied to `request.method`. -/
def strLower (s : String) : String := String.mk (s.data.map charLower)

/-! ## WSGI front end (`src/sunbreeze/wsgi.py`) -/

/-- A WSGI request: HTTP method and path, the two fields `handle_request`
reads from the `webob` request. -/
structure Request where
  method : String
  path : String
deriving DecidableEq, Repr

/-- A `webob` response as used by the handlers: status code (default 200)
and text body (default empty). -/
structure Response where
  status : Nat := 200
  text : String := ""
deriving DecidableEq, Repr

/-- A handler value of `handle_request`'s route table: a plain function
invoked as `handler(request, response, **kwargs)`, or a class whose
instances expose one operation per lowercase HTTP method name. -/
inductive WHandler where
  | func (f : Request → Response → List (String × String) → Response)
  | cls (methods : List (String × (Request → Response → List (String × String) → Response)))

/-- Lookup of `getattr(instance, request.method.lower(), None)` on a class
instance, over the class's table of method-named operations. -/
def getMethod (ms : List (String × (Request → Response → List (String × String) → Response)))
    (name : String) :
    Option (Request → Response → List (String × String) → Response) :=
  (ms.find? (fun m => m.1 == name)).map (fun m => m.2)

/-- The registration-time failure of `Sunbreeze.add_route`: the Python code
raises `AssertionError("Route ... already exists.")` for a duplicate path. -/
inductive RouteError where
  | duplicateRoute (path : String)
deriving DecidableEq, Repr

/-- The dispatch-time failure of `Sunbreeze.handle_request`: the Python code
raises `AttributeError("Method now allowed", request.method)` when the
matched class has no operation for the request's method. -/
inductive DispatchError where
  | methodNotAllowed (method : String)
deriving DecidableEq, Repr

/-- `Sunbreeze.add_route`: reject an exactly-registered path, otherwise
append the new route (Python dict insertion order keeps registration
order). -/
def add_route (routes : List (String × WHandler)) (path : String) (h : WHandler) :
    Except RouteError (List (String × WHandler)) :=
  if routes.any (fun r => r.1 == path) then .error (.duplicateRoute path)
  else .ok (routes ++ [(path, h)])

/-- `Sunbreeze.find_handler`: scan the routes in registration order and
return the first whose pattern parses the request path, with the named
parameters of the parse result. -/
def find_handler (routes : List (String × WHandler)) (request_path : String) :
    Option (WHandler × List (String × String)) :=
  match routes with
  | [] => none
  | (path, handler) :: rest =>
      match parseMatch path request_path with
      | some named => some (handler, named)
      | none => find_handler rest request_path

/-- `Sunbreeze.default_response`: set status 404 and body "Not Found" on the
response. -/
def default_response (response : Response) : Response :=
  { response with status := 404, text := "Not Found" }

/-- Result of one `handle_request` call: the response (or the Python
exception it raises), the next fresh instance id, and the id of the class
instance constructed for this request, if any. -/
structure WOut where
  result : Except DispatchError Response
  nextId : Nat
  instanceId : Option Nat
deriving Repr

/-- `Sunbreeze.handle_request`: look the handler up; a class handler is
instantiated freshly (`handler()`, modelled by consuming the allocation
counter `σ`) and the lowercased request method selected on the instance,
raising when absent; a missing route produces the default 404 response. -/
def handle_request (routes : List (String × WHandler)) (request : Request) (σ : Nat) :
    WOut :=
  let response : Response := {}
  match find_handler routes request.path with
  | some (handler, kwargs) =>
      match handler with
      | .func f => ⟨.ok (f request response kwargs), σ, none⟩
      | .cls ms =>
          match getMethod ms (strLower request.method) with
          | some f => ⟨.ok (f request response kwargs), σ + 1, some σ⟩
          | none => ⟨.error (.methodNotAllowed request.method), σ + 1, some σ⟩
  | none => ⟨.ok (default_response response), σ, none⟩

/-! ## Asynchronous class-based front end (`src/sunbreeze/__init__.py`) -/

/-- A Python exception escaping a handler: the two process-termination
signals, or an ordinary exception carrying its message. -/
inductive PyError where
  | keyboardInterrupt
  | systemExit
  | exception (msg : String)
deriving DecidableEq, Repr

/-- `METHOD_NOT_ALLOWED_MESSAGE` of `src/sunbreeze/__init__.py`. -/
def METHOD_NOT_ALLOWED_MESSAGE : String := "Method Not Allowed"

/-- A `starlette` `PlainTextResponse`: status code, content and media type. -/
structure PResponse where
  status : Nat := 200
  content : String
  mediaType : String := "text/plain"
deriving DecidableEq, Repr

/-- The method-named handlers a `BaseView` subclass exposes; an entry
`(name, f)` models an `async def name(self, request)` coroutine, whose
body may raise. -/
def ViewHandlers : Type :=
  List (String × (Request → Except PyError PResponse))

/-- `BaseView.dispatch`: select the handler attribute named by the
lowercased request method; when the view has no such attribute, answer 405
with `METHOD_NOT_ALLOWED_MESSAGE` instead of raising. -/
def dispatch (handlers : ViewHandlers) (request : Request) :
    Except PyError PResponse :=
  match (handlers.find? (fun h => h.1 == strLower request.method)).map (fun h => h.2) with
  | some f => f request
  | none => .ok ⟨405, METHOD_NOT_ALLOWED_MESSAGE, "text/plain"⟩

/-- Python's `traceback.format_exc()`: the diagnostic trace text, opening
with the fixed marker line and ending with the exception's message. -/
def format_exc (msg : String) : String :=
  "Traceback (most recent call last):\n" ++ msg ++ "\n"

/-- Modelled from the spec: the internal `error.html` template (its file is
not part of the sources) renders a debug page whose body contains the
`traceback` field it is given. -/
def renderErrorTemplate (tb : String) : String :=
  "<h1>Error</h1><pre>" ++ tb ++ "</pre>"

/-- `BaseView.__call__`: run `dispatch` inside the error boundary.
`KeyboardInterrupt` and `SystemExit` are logged (the returned list models
the log) and re-raised; any other exception becomes a 500 response — the
rendered `error.html` page with the traceback in debug mode, the fixed
generic body in production mode. -/
def baseViewCall (debug : Bool) (handlers : ViewHandlers) (request : Request) :
    List String × Except PyError PResponse :=
  match dispatch handlers request with
  | .ok r => ([], .ok r)
  | .error .keyboardInterrupt =>
      (["Application stopped by user."], .error .keyboardInterrupt)
  | .error .systemExit =>
      (["Application stopped by user."], .error .systemExit)
  | .error (.exception msg) =>
      if debug then
        ([], .ok ⟨500, renderErrorTemplate (format_exc msg), "text/html"⟩)
      else
        ([], .ok ⟨500, "Something ducky happened.", "text/plain"⟩)

/-! ## Segment view of route patterns

The specification describes a route pattern as `/`-delimited segments, each
either a literal or a placeholder `\x7bidentifier\x7d`.  The following
definitions give that view a syntax, render it back to the format string
fed to the parse call, and state when a concrete path has the same shape. -/

/-- One segment of a route pattern: a literal or a named placeholder. -/
inductive PatSeg where
  | lit (cs : List Char)
  | ph (name : String)

/-- Identifier characters of a placeholder name (the `\w` class the parse
library accepts in field names, ASCII range). -/
def isIdentChar (c : Char) : Bool :=
  (48 ≤ c.toNat && c.toNat ≤ 57) || (65 ≤ c.toNat && c.toNat ≤ 90) ||
    (97 ≤ c.toNat && c.toNat ≤ 122) || c.toNat == 95

/-- Render one pattern segment to format-string characters. -/
def segChars : PatSeg → List Char
  | .lit cs => cs
  | .ph n => '{' :: n.data ++ ['}']

/-- Join segments with `/` separators (the inverse of segment splitting). -/
def joinSegs : List (List Char) → List Char
  | [] => []
  | [s] => s
  | s :: t :: ss => s ++ '/' :: joinSegs (t :: ss)

/-- Tokens of one pattern segment. -/
def segToks : PatSeg → List Tok
  | .lit cs => cs.map .lit
  | .ph n => [.field n]

/-- Tokens of a whole segment-structured pattern, with `/` literals between
segments. -/
def segsToks : List PatSeg → List Tok
  | [] => []
  | [p] => segToks p
  | p :: q :: ps => segToks p ++ .lit '/' :: segsToks (q :: ps)

/-- Well-formedness of one pattern segment: a literal segment holds no `/`
and no field opener; a placeholder has a non-empty identifier name. -/
def patOk : PatSeg → Prop
  | .lit cs => '/' ∉ cs ∧ '{' ∉ cs
  | .ph n => n ≠ "" ∧ ∀ c ∈ n.data, isIdentChar c = true

/-- Shape agreement of one pattern segment with one path segment: a literal
segment is exactly the path segment; a placeholder faces a non-empty path
segment without `/`. -/
def segOk : PatSeg → List Char → Prop
  | .lit cs, s => patOk (.lit cs) ∧ cs = s
  | .ph n, s => patOk (.ph n) ∧ s ≠ [] ∧ '/' ∉ s

/-- Shape agreement of a whole pattern with a whole path, segment by
segment (equal segment counts). -/
def aligned2 : List PatSeg → List (List Char) → Prop
  | [], [] => True
  | p :: ps, s :: ss => segOk p s ∧ aligned2 ps ss
  | _, _ => False

/-- The bindings the matcher produces before name filtering and string
conversion: each placeholder paired with its path segment, in order. -/
def rawBinds : List PatSeg → List (List Char) → List (String × List Char)
  | .ph n :: ps, s :: ss => (n, s) :: rawBinds ps ss
  | .lit _ :: ps, _ :: ss => rawBinds ps ss
  | _, _ => []

/-- The named parameters the specification expects: each placeholder name
bound to the path segment in its position. -/
def expectedBinds : List PatSeg → List (List Char) → List (String × String)
  | .ph n :: ps, s :: ss => (n, String.mk s) :: expectedBinds ps ss
  | .lit _ :: ps, _ :: ss => expectedBinds ps ss
  | _, _ => []

/-! ## Helper lemmas -/

theorem char_toNat_inj {a b : Char} (h : a.toNat = b.toNat) : a = b := by
  cases a with
  | mk v1 h1 =>
    cases b with
    | mk v2 h2 =>
      congr 1
      exact UInt32.ext h

theorem chEq_refl (c : Char) : chEq c c = true := by
  simp [chEq]

theorem chEq_slash {c : Char} (h : chEq '/' c = true) : c = '/' := by
  simp only [chEq, beq_iff_eq] at h
  have h47 : ('/' : Char).toNat = 47 := by decide
  rw [h47] at h
  unfold lowerN at h
  have : c.toNat = 47 := by
    by_cases hc : 65 ≤ c.toNat ∧ c.toNat ≤ 90
    · rw [if_neg (by omega), if_pos hc] at h
      omega
    · rw [if_neg (by omega), if_neg hc] at h
      omega
  exact char_toNat_inj (by rw [this]; decide)

theorem chEq_slash_false {c : Char} (h : c ≠ '/') : chEq '/' c = false := by
  cases hc : chEq '/' c with
  | false => rfl
  | true => exact absurd (chEq_slash hc) h

theorem startsWithL_append (ns b : List Char) : startsWithL ns (ns ++ b) = true := by
  induction ns with
  | nil => rfl
  | cons c cs ih => simp [startsWithL, ih]

theorem containsL_here (ns b : List Char) : containsL ns (ns ++ b) = true := by
  cases hns : ns with
  | nil =>
    cases b with
    | nil => rfl
    | cons x xs => simp [containsL, startsWithL]
  | cons c cs =>
    show (startsWithL (c :: cs) ((c :: cs) ++ b) || containsL (c :: cs) (cs ++ b)) = true
    rw [startsWithL_append, Bool.true_or]

theorem containsL_append (ns a b : List Char) : containsL ns (a ++ ns ++ b) = true := by
  induction a with
  | nil => simpa using containsL_here ns b
  | cons c a ih =>
    show (startsWithL ns ((c :: a) ++ ns ++ b) || containsL ns (a ++ ns ++ b)) = true
    rw [ih, Bool.or_true]

theorem ident_ne_rbrace {c : Char} (h : isIdentChar c = true) : c ≠ '}' := by
  intro he
  subst he
  exact absurd h (by decide)

theorem string_eta (s : String) : String.mk s.data = s := by
  cases s
  rfl

theorem tokenizeAux_lits (cs : List Char) (rest : List Char) (h : '{' ∉ cs) :
    tokenizeAux none (cs ++ rest) = cs.map .lit ++ tokenizeAux none rest := by
  induction cs with
  | nil => rfl
  | cons c cs ih =>
    have hc : c ≠ '{' := by
      intro he
      exact h (he ▸ List.mem_cons_self c cs)
    have hm : '{' ∉ cs := fun hx => h (List.mem_cons_of_mem c hx)
    simp [tokenizeAux, hc, ih hm]

theorem tokenizeAux_field (nd : List Char) (h : '}' ∉ nd) :
    ∀ (acc rest : List Char),
      tokenizeAux (some acc) (nd ++ '}' :: rest)
        = .field (String.mk (acc ++ nd)) :: tokenizeAux none rest := by
  induction nd with
  | nil => intro acc rest; simp [tokenizeAux]
  | cons c nd ih =>
    intro acc rest
    have hc : c ≠ '}' := by
      intro he
      exact h (he ▸ List.mem_cons_self c nd)
    have hm : '}' ∉ nd := fun hx => h (List.mem_cons_of_mem c hx)
    calc tokenizeAux (some acc) ((c :: nd) ++ '}' :: rest)
        = tokenizeAux (some (acc ++ [c])) (nd ++ '}' :: rest) := by
          simp [tokenizeAux, hc]
      _ = .field (String.mk (acc ++ [c] ++ nd)) :: tokenizeAux none rest :=
          ih hm (acc ++ [c]) rest
      _ = .field (String.mk (acc ++ c :: nd)) :: tokenizeAux none rest := by
          simp

theorem tokenize_segs :
    ∀ (ps : List PatSeg), (∀ p ∈ ps, patOk p) →
      tokenize (joinSegs (ps.map segChars)) = segsToks ps := by
  intro ps
  induction ps with
  | nil => intro _; rfl
  | cons p ps ih =>
    intro h
    have hp : patOk p := h p (List.mem_cons_self p ps)
    have hrest : ∀ q ∈ ps, patOk q := fun q hq => h q (List.mem_cons_of_mem p hq)
    have h0 : tokenizeAux none ([] : List Char) = [] := rfl
    cases ps with
    | nil =>
      cases p with
      | lit cs =>
        obtain ⟨-, hbr⟩ := hp
        have := tokenizeAux_lits cs [] hbr
        simpa [tokenize, segsToks, segToks, joinSegs, segChars, h0] using this
      | ph n =>
        obtain ⟨-, hid⟩ := hp
        have hnb : '}' ∉ n.data := fun hx => ident_ne_rbrace (hid _ hx) rfl
        have := tokenizeAux_field n.data hnb [] []
        show tokenizeAux none ('{' :: (n.data ++ ['}'])) = [Tok.field n]
        have hopen : tokenizeAux none ('{' :: (n.data ++ ['}']))
            = tokenizeAux (some []) (n.data ++ ['}']) := by
          simp [tokenizeAux]
        rw [hopen]
        have : n.data ++ ['}'] = n.data ++ '}' :: ([] : List Char) := rfl
        rw [this, tokenizeAux_field n.data hnb [] [], h0]
        simp [string_eta]
    | cons q ps =>
      have ihq := ih hrest
      cases p with
      | lit cs =>
        obtain ⟨-, hbr⟩ := hp
        show tokenizeAux none (cs ++ '/' :: joinSegs ((q :: ps).map segChars))
            = cs.map Tok.lit ++ Tok.lit '/' :: segsToks (q :: ps)
        rw [tokenizeAux_lits cs _ hbr]
        have hsl : tokenizeAux none ('/' :: joinSegs ((q :: ps).map segChars))
            = Tok.lit '/' :: tokenizeAux none (joinSegs ((q :: ps).map segChars)) := by
          simp [tokenizeAux]
        rw [hsl, show tokenizeAux none (joinSegs ((q :: ps).map segChars))
            = tokenize (joinSegs ((q :: ps).map segChars)) from rfl, ihq]
      | ph n =>
        obtain ⟨-, hid⟩ := hp
        have hnb : '}' ∉ n.data := fun hx => ident_ne_rbrace (hid _ hx) rfl
        show tokenizeAux none (('{' :: (n.data ++ ['}'])) ++ '/' :: joinSegs ((q :: ps).map segChars))
            = Tok.field n :: Tok.lit '/' :: segsToks (q :: ps)
        have hassoc : (('{' :: (n.data ++ ['}'])) ++ '/' :: joinSegs ((q :: ps).map segChars))
            = '{' :: (n.data ++ '}' :: '/' :: joinSegs ((q :: ps).map segChars)) := by
          simp
        rw [hassoc]
        have hopen : tokenizeAux none ('{' :: (n.data ++ '}' :: '/' :: joinSegs ((q :: ps).map segChars)))
            = tokenizeAux (some []) (n.data ++ '}' :: '/' :: joinSegs ((q :: ps).map segChars)) := by
          simp [tokenizeAux]
        rw [hopen, tokenizeAux_field n.data hnb [] _]
        have hsl : tokenizeAux none ('/' :: joinSegs ((q :: ps).map segChars))
            = Tok.lit '/' :: tokenizeAux none (joinSegs ((q :: ps).map segChars)) := by
          simp [tokenizeAux]
        rw [hsl, show tokenizeAux none (joinSegs ((q :: ps).map segChars))
            = tokenize (joinSegs ((q :: ps).map segChars)) from rfl, ihq]
        simp [string_eta]

theorem pmatch_lits (cs : List Char) (ts : List Tok) :
    ∀ s : List Char, pmatch (cs.map .lit ++ ts) (cs ++ s) = pmatch ts s := by
  induction cs with
  | nil => intro s; rfl
  | cons c cs ih =>
    intro s
    show (if chEq c c then pmatch (cs.map .lit ++ ts) (cs ++ s) else none) = pmatch ts s
    rw [chEq_refl, if_pos rfl, ih s]

theorem pfield_end (n : String) :
    ∀ (ds : List Char) (d : Char) (acc : List Char),
      pfield n (fun r => pmatch [] r) acc (d :: ds) = some [(n, acc ++ d :: ds)] := by
  intro ds
  induction ds with
  | nil =>
    intro d acc
    simp [pfield, pmatch]
  | cons e es ih =>
    intro d acc
    have h1 : pmatch [] (e :: es) = none := by simp [pmatch]
    have := ih e (acc ++ [d])
    simp [pfield, h1] at this ⊢
    simpa using this

theorem pfield_seg (n : String) (ts : List Tok) :
    ∀ (v acc s : List Char) (bs : List (String × List Char)),
      v ≠ [] → '/' ∉ v → pmatch ts s = some bs →
      pfield n (fun r => pmatch (.lit '/' :: ts) r) acc (v ++ '/' :: s)
        = some ((n, acc ++ v) :: bs) := by
  intro v
  induction v with
  | nil =>
    intro acc s bs hv
    exact absurd rfl hv
  | cons d ds ih =>
    intro acc s bs _ hs hm
    cases ds with
    | nil =>
      have h1 : pmatch (Tok.lit '/' :: ts) ('/' :: s) = some bs := by
        show (if chEq '/' '/' then pmatch ts s else none) = some bs
        rw [chEq_refl, if_pos rfl, hm]
      simp [pfield, h1]
    | cons e es =>
      have he : e ≠ '/' := by
        intro heq
        exact hs (heq ▸ List.mem_cons_of_mem d (List.mem_cons_self e es))
      have h1 : pmatch (Tok.lit '/' :: ts) (e :: (es ++ '/' :: s)) = none := by
        show (if chEq '/' e then pmatch ts (es ++ '/' :: s) else none) = none
        rw [chEq_slash_false he, if_neg (by simp)]
      have hs' : '/' ∉ (e :: es) := fun hx => hs (List.mem_cons_of_mem d hx)
      have hstep := ih (acc ++ [d]) s bs (by simp) hs' hm
      show (match pmatch (Tok.lit '/' :: ts) ((e :: es) ++ '/' :: s) with
        | some bs => some ((n, acc ++ [d]) :: bs)
        | none => pfield n (fun r => pmatch (Tok.lit '/' :: ts) r) (acc ++ [d]) ((e :: es) ++ '/' :: s))
        = some ((n, acc ++ d :: e :: es) :: bs)
      rw [show (e :: es) ++ '/' :: s = e :: (es ++ '/' :: s) from rfl, h1]
      simpa using hstep

theorem pmatch_segs :
    ∀ (ps : List PatSeg) (ss : List (List Char)), aligned2 ps ss →
      pmatch (segsToks ps) (joinSegs ss) = some (rawBinds ps ss) := by
  intro ps
  induction ps with
  | nil =>
    intro ss h
    cases ss with
    | nil => rfl
    | cons s ss => simp [aligned2] at h
  | cons p ps ih =>
    intro ss h
    cases ss with
    | nil => simp [aligned2] at h
    | cons s ss =>
      obtain ⟨hp, hrest⟩ := h
      cases ps with
      | nil =>
        cases ss with
        | cons s2 ss => simp [aligned2] at hrest
        | nil =>
          cases p with
          | lit cs =>
            obtain ⟨-, rfl⟩ := hp
            have := pmatch_lits cs [] []
            simpa [segsToks, segToks, joinSegs, rawBinds, pmatch] using this
          | ph n =>
            obtain ⟨-, hne, -⟩ := hp
            cases hs : s with
            | nil => exact absurd hs hne
            | cons d ds =>
              show pfield n (fun r => pmatch [] r) [] (d :: ds) = some [(n, d :: ds)]
              simpa using pfield_end n ds d []
      | cons q ps =>
        cases ss with
        | nil => simp [aligned2] at hrest
        | cons s2 ss =>
          have ihq := ih (s2 :: ss) hrest
          cases p with
          | lit cs =>
            obtain ⟨-, rfl⟩ := hp
            show pmatch (cs.map Tok.lit ++ Tok.lit '/' :: segsToks (q :: ps))
                (cs ++ '/' :: joinSegs (s2 :: ss))
              = some (rawBinds (q :: ps) (s2 :: ss))
            rw [pmatch_lits cs (Tok.lit '/' :: segsToks (q :: ps)) ('/' :: joinSegs (s2 :: ss))]
            show (if chEq '/' '/' then pmatch (segsToks (q :: ps)) (joinSegs (s2 :: ss)) else none)
              = some (rawBinds (q :: ps) (s2 :: ss))
            rw [chEq_refl, if_pos rfl, ihq]
          | ph n =>
            obtain ⟨-, hne, hnsl⟩ := hp
            show pfield n (fun r => pmatch (Tok.lit '/' :: segsToks (q :: ps)) r) []
                (s ++ '/' :: joinSegs (s2 :: ss))
              = some ((n, s) :: rawBinds (q :: ps) (s2 :: ss))
            have := pfield_seg n (segsToks (q :: ps)) s [] (joinSegs (s2 :: ss))
              (rawBinds (q :: ps) (s2 :: ss)) hne hnsl ihq
            simpa using this

theorem pfield_inv (n : String) (k : List Char → Option (List (String × List Char))) :
    ∀ (s acc : List Char) (bs : List (String × List Char)),
      pfield n k acc s = some bs →
      ∃ w rest bs', w ≠ [] ∧ s = w ++ rest ∧ k rest = some bs' ∧
        bs = (n, acc ++ w) :: bs' := by
  intro s
  induction s with
  | nil =>
    intro acc bs h
    simp [pfield] at h
  | cons d ds ih =>
    intro acc bs h
    cases hk : k ds with
    | some bs0 =>
      have hbs : bs = (n, acc ++ [d]) :: bs0 := by
        have : pfield n k acc (d :: ds) = some ((n, acc ++ [d]) :: bs0) := by
          simp [pfield, hk]
        rw [this] at h
        exact (Option.some.injEq _ _ ▸ h).symm
      exact ⟨[d], ds, bs0, by simp, rfl, hk, hbs⟩
    | none =>
      have h' : pfield n k (acc ++ [d]) ds = some bs := by
        have : pfield n k acc (d :: ds) = pfield n k (acc ++ [d]) ds := by
          simp [pfield, hk]
        rw [this] at h
        exact h
      obtain ⟨w, rest, bs', hw, hsplit, hk', hbs⟩ := ih (acc ++ [d]) bs h'
      refine ⟨d :: w, rest, bs', by simp, by simp [hsplit], hk', ?_⟩
      rw [hbs]
      simp

theorem pmatch_binds (ts : List Tok) :
    ∀ (path : List Char) (bs : List (String × List Char)), pmatch ts path = some bs →
      ∀ x ∈ bs, x.2 ≠ [] ∧ ∃ a b, path = a ++ x.2 ++ b := by
  induction ts with
  | nil =>
    intro path bs h x hx
    cases path with
    | nil =>
      have : bs = [] := by simpa [pmatch] using h.symm
      subst this
      simp at hx
    | cons c cs => simp [pmatch] at h
  | cons t ts ih =>
    intro path bs h x hx
    cases t with
    | lit c =>
      cases path with
      | nil => simp [pmatch] at h
      | cons d ds =>
        by_cases hc : chEq c d = true
        · have h' : pmatch ts ds = some bs := by
            have : pmatch (Tok.lit c :: ts) (d :: ds) = pmatch ts ds := by
              show (if chEq c d then pmatch ts ds else none) = pmatch ts ds
              rw [hc, if_pos rfl]
            rw [this] at h
            exact h
          obtain ⟨hne, a, b, hab⟩ := ih ds bs h' x hx
          exact ⟨hne, d :: a, b, by simp [hab]⟩
        · exfalso
          have : pmatch (Tok.lit c :: ts) (d :: ds) = none := by
            show (if chEq c d then pmatch ts ds else none) = none
            rw [if_neg (by simpa using hc)]
          rw [this] at h
          exact Option.noConfusion h
    | field n =>
      have h' : pfield n (fun r => pmatch ts r) [] path = some bs := h
      obtain ⟨w, rest, bs', hw, hsplit, hk, hbs⟩ := pfield_inv n _ path [] bs h'
      subst hbs
      rcases List.mem_cons.mp hx with hx1 | hx2
      · subst hx1
        refine ⟨by simpa using hw, [], rest, by simpa using hsplit⟩
      · obtain ⟨hne, a, b, hab⟩ := ih rest bs' hk x hx2
        exact ⟨hne, w ++ a, b, by simp [hsplit, hab]⟩

theorem pmatch_lits_only (cs : List Char) :
    ∀ ds : List Char,
      pmatch (cs.map .lit) ds
        = if cs.map (fun c => lowerN c.toNat) = ds.map (fun c => lowerN c.toNat)
          then some [] else none := by
  induction cs with
  | nil =>
    intro ds
    cases ds with
    | nil => rfl
    | cons d ds => simp [pmatch]
  | cons c cs ih =>
    intro ds
    cases ds with
    | nil => simp [pmatch]
    | cons d ds =>
      show (if chEq c d then pmatch (cs.map .lit) ds else none) = _
      by_cases hcd : lowerN c.toNat = lowerN d.toNat
      · rw [if_pos (by simp [chEq, hcd]), ih ds]
        by_cases htl : cs.map (fun c => lowerN c.toNat) = ds.map (fun c => lowerN c.toNat)
        · rw [if_pos htl, if_pos (by simp [hcd, htl])]
        · rw [if_neg htl, if_neg (by simp [htl])]
      · rw [if_neg (by simp [chEq, hcd]), if_neg (by simp [hcd])]

theorem aligned2_patOk :
    ∀ (ps : List PatSeg) (ss : List (List Char)), aligned2 ps ss → ∀ p ∈ ps, patOk p := by
  intro ps
  induction ps with
  | nil => intro ss _ p hp; simp at hp
  | cons q ps ih =>
    intro ss h p hp
    cases ss with
    | nil => simp [aligned2] at h
    | cons s ss =>
      obtain ⟨hq, hrest⟩ := h
      rcases List.mem_cons.mp hp with rfl | hp2
      · cases p with
        | lit cs => exact hq.1
        | ph n => exact hq.1
      · exact ih ss hrest p hp2

theorem rawBinds_post :
    ∀ (ps : List PatSeg) (ss : List (List Char)), aligned2 ps ss →
      ((rawBinds ps ss).filter (fun b => !(b.1 == ""))).map (fun b => (b.1, String.mk b.2))
        = expectedBinds ps ss := by
  intro ps
  induction ps with
  | nil =>
    intro ss h
    cases ss with
    | nil => rfl
    | cons s ss => simp [aligned2] at h
  | cons p ps ih =>
    intro ss h
    cases ss with
    | nil => simp [aligned2] at h
    | cons s ss =>
      obtain ⟨hp, hrest⟩ := h
      cases p with
      | lit cs =>
        show ((rawBinds ps ss).filter _).map _ = expectedBinds ps ss
        exact ih ss hrest
      | ph n =>
        have hn : (!(n == "")) = true := by
          have hne : n ≠ "" := hp.1.1
          simp [hne]
        show (((n, s) :: rawBinds ps ss).filter (fun b => !(b.1 == ""))).map
            (fun b => (b.1, String.mk b.2)) = (n, String.mk s) :: expectedBinds ps ss
        rw [List.filter_cons_of_pos (by simpa using hn), List.map_cons, ih ss hrest]

/-- C7 (amended): for every well-formed segment pattern — each segment a
brace-free literal or a `\x7bidentifier\x7d` placeholder — and every path of the
same shape (equal segment count, equal literal segments, and each placeholder
position holding a non-empty `/`-free segment), the parse call of
`find_handler` succeeds and binds each placeholder name to exactly the path
segment in its position. -/
theorem parseMatch_binds_segments (ps : List PatSeg) (ss : List (List Char))
    (h : aligned2 ps ss) :
    parseMatch (String.mk (joinSegs (ps.map segChars))) (String.mk (joinSegs ss))
      = some (expectedBinds ps ss) := by
  have hpat : ∀ p ∈ ps, patOk p := aligned2_patOk ps ss h
  show (pmatch (tokenize (joinSegs (ps.map segChars))) (joinSegs ss)).map _
      = some (expectedBinds ps ss)
  rw [tokenize_segs ps hpat, pmatch_segs ps ss h]
  show some (((rawBinds ps ss).filter _).map _) = some (expectedBinds ps ss)
  rw [rawBinds_post ps ss h]

/-- C7 counterexample: the pattern `/hello/\x7bname\x7d` and the path `/hello/`
have equal segment counts and equal literal segments (so the claim demands a
successful match binding `name` to the empty segment), but the code's
matcher returns nothing: a `parse` field never matches an empty segment. -/
theorem parseMatch_empty_segment_cex :
    splitSlash "/hello/\x7bname\x7d".data
        = [[], ['h', 'e', 'l', 'l', 'o'], ['{', 'n', 'a', 'm', 'e', '}']] ∧
    splitSlash "/hello/".data = [[], ['h', 'e', 'l', 'l', 'o'], []] ∧
    parseMatch "/hello/\x7bname\x7d" "/hello/" = none :=
  ⟨rfl, rfl, rfl⟩

/-- C7 witness: the registered route `/hello/\x7bname\x7d` of the repository's
demo application, applied to the path `/hello/Ada`. -/
theorem parseMatch_binds_segments_witness :
    parseMatch "/hello/\x7bname\x7d" "/hello/Ada" = some [("name", "Ada")] :=
  parseMatch_binds_segments
    [.lit [], .lit ['h', 'e', 'l', 'l', 'o'], .ph "name"]
    [[], ['h', 'e', 'l', 'l', 'o'], ['A', 'd', 'a']]
    ⟨⟨⟨by decide, by decide⟩, rfl⟩,
     ⟨⟨by decide, by decide⟩, rfl⟩,
     ⟨⟨by decide, by decide⟩, by decide, by decide⟩, trivial⟩

/-- C2 (amended): the matcher is anchored at both ends, but it is not
segment-based.  A pattern without placeholders matches exactly the paths
equal to it up to ASCII case (so a genuine literal mismatch yields nothing,
while a case difference still matches); a placeholder binds a non-empty
substring of the path, which may contain `/` and span several segments, so
equal segment counts are not required for a match. -/
theorem parseMatch_anchored_and_binds_substrings :
    (∀ cs ds : List Char, '{' ∉ cs →
      parseMatch (String.mk cs) (String.mk ds)
        = if cs.map (fun c => lowerN c.toNat) = ds.map (fun c => lowerN c.toNat)
          then some [] else none) ∧
    (∀ (pattern path : String) (bs : List (String × String)),
      parseMatch pattern path = some bs →
      ∀ x ∈ bs, x.2 ≠ "" ∧ containsStr x.2 path = true) := by
  constructor
  · intro cs ds hbr
    show (pmatch (tokenize cs) ds).map _ = _
    rw [show tokenize cs = tokenize (cs ++ []) by simp, tokenize,
      tokenizeAux_lits cs [] hbr]
    rw [show cs.map Tok.lit ++ tokenizeAux none [] = cs.map Tok.lit by simp; rfl]
    rw [pmatch_lits_only cs ds]
    by_cases hmap : cs.map (fun c => lowerN c.toNat) = ds.map (fun c => lowerN c.toNat)
    · rw [if_pos hmap, if_pos hmap]
      rfl
    · rw [if_neg hmap, if_neg hmap]
      rfl
  · intro pattern path bs h x hx
    have hsome : ∃ raw, pmatch (tokenize pattern.data) path.data = some raw ∧
        bs = (raw.filter (fun b => !(b.1 == ""))).map (fun b => (b.1, String.mk b.2)) := by
      cases hraw : pmatch (tokenize pattern.data) path.data with
      | none =>
        exfalso
        have : parseMatch pattern path = none := by
          show (pmatch (tokenize pattern.data) path.data).map _ = none
          rw [hraw]
          rfl
        rw [this] at h
        exact Option.noConfusion h
      | some raw =>
        refine ⟨raw, rfl, ?_⟩
        have : parseMatch pattern path
            = some ((raw.filter (fun b => !(b.1 == ""))).map (fun b => (b.1, String.mk b.2))) := by
          show (pmatch (tokenize pattern.data) path.data).map _ = _
          rw [hraw]
          rfl
        rw [this] at h
        exact (Option.some.injEq _ _ ▸ h).symm
    obtain ⟨raw, hraw, hbs⟩ := hsome
    subst hbs
    obtain ⟨y, hyf, hxy⟩ := List.mem_map.mp hx
    have hymem : y ∈ raw := List.mem_of_mem_filter hyf
    obtain ⟨hne, a, b, hab⟩ := pmatch_binds (tokenize pattern.data) path.data raw hraw y hymem
    constructor
    · rw [← hxy]
      intro hemp
      exact hne (congrArg String.data hemp)
    · rw [← hxy]
      show containsL (String.mk y.2).data path.data = true
      rw [show (String.mk y.2).data = y.2 from rfl, hab]
      exact containsL_append y.2 a b

/-- C2 counterexample: the pattern `/\x7bname\x7d` has two `/`-segments and the
path `/a/b` has three, yet the code's matcher succeeds and binds `name` to
`a/b`, a value spanning a `/`; and the literal pattern `/Home` differs from
the path `/home` in its literal segment, yet the matcher succeeds, because
the parse library compares case-insensitively. -/
theorem parseMatch_cross_segment_cex :
    parseMatch "/\x7bname\x7d" "/a/b" = some [("name", "a/b")] ∧
    (splitSlash "/\x7bname\x7d".data).length = 2 ∧
    (splitSlash "/a/b".data).length = 3 ∧
    parseMatch "/Home" "/home" = some [] ∧
    splitSlash "/Home".data ≠ splitSlash "/home".data :=
  ⟨rfl, rfl, rfl, rfl, by decide⟩

/-- C2 witness: the amended theorem evaluated at a literal-only pattern with
a case difference and at a placeholder binding. -/
theorem parseMatch_anchored_witness :
    parseMatch "/Index" "/index" = some [] ∧
    (("7" : String) ≠ "" ∧ containsStr "7" "/x/7" = true) := by
  constructor
  · have h := parseMatch_anchored_and_binds_substrings.1 "/Index".data "/index".data
      (by decide)
    rw [if_pos (by decide)] at h
    exact h
  · exact parseMatch_anchored_and_binds_substrings.2 "/x/\x7bid\x7d" "/x/7"
      [("id", "7")] rfl ("id", "7") (by decide)

theorem data_append (a b : String) : (a ++ b).data = a.data ++ b.data := rfl

theorem find_handler_none_iff (p : String) :
    ∀ routes : List (String × WHandler),
      find_handler routes p = none ↔ ∀ r ∈ routes, parseMatch r.1 p = none := by
  intro routes
  induction routes with
  | nil => simp [find_handler]
  | cons r rest ih =>
    obtain ⟨pat0, h0⟩ := r
    cases hm : parseMatch pat0 p with
    | some named =>
      have hstep : find_handler ((pat0, h0) :: rest) p = some (h0, named) := by
        simp [find_handler, hm]
      rw [hstep]
      constructor
      · intro hfalse
        exact Option.noConfusion hfalse
      · intro hall
        have := hall (pat0, h0) (List.mem_cons_self _ _)
        rw [hm] at this
        exact Option.noConfusion this
    | none =>
      have hstep : find_handler ((pat0, h0) :: rest) p = find_handler rest p := by
        simp [find_handler, hm]
      rw [hstep, ih]
      constructor
      · intro hall r hr
        rcases List.mem_cons.mp hr with rfl | hr2
        · exact hm
        · exact hall r hr2
      · intro hall r hr
        exact hall r (List.mem_cons_of_mem _ hr)

theorem find_handler_of_first (p : String) :
    ∀ (routes : List (String × WHandler)) (i : Nat) (pat : String) (h : WHandler)
      (bs : List (String × String)),
      routes[i]? = some (pat, h) → parseMatch pat p = some bs →
      (∀ (j : Nat) (q : String × WHandler), j < i → routes[j]? = some q →
        parseMatch q.1 p = none) →
      find_handler routes p = some (h, bs) := by
  intro routes
  induction routes with
  | nil =>
    intro i pat h bs hi
    simp at hi
  | cons r rest ih =>
    intro i pat h bs hi hm hprev
    obtain ⟨pat0, h0⟩ := r
    cases i with
    | zero =>
      have hi0 : ((pat0, h0) :: rest)[0]? = some (pat0, h0) := by simp
      rw [hi0] at hi
      injection hi with heq
      injection heq with heq1 heq2
      subst heq1
      subst heq2
      simp [find_handler, hm]
    | succ i =>
      have h0none : parseMatch pat0 p = none :=
        hprev 0 (pat0, h0) (Nat.succ_pos i) (by simp)
      have hstep : find_handler ((pat0, h0) :: rest) p = find_handler rest p := by
        simp [find_handler, h0none]
      rw [hstep]
      refine ih i pat h bs (by simpa using hi) hm ?_
      intro j q hj hq
      exact hprev (j + 1) q (Nat.succ_lt_succ hj) (by simpa using hq)

/-- C8: `find_handler` scans the route table in registration order: it
returns nothing exactly when no registered pattern matches the request
path, and it returns the handler and bound parameters of a matching route
whenever every earlier-registered route fails to match — so with several
candidate matches the earliest-registered one wins. -/
theorem find_handler_first_match (routes : List (String × WHandler)) (p : String) :
    (find_handler routes p = none ↔ ∀ r ∈ routes, parseMatch r.1 p = none) ∧
    (∀ (i : Nat) (pat : String) (h : WHandler) (bs : List (String × String)),
      routes[i]? = some (pat, h) → parseMatch pat p = some bs →
      (∀ (j : Nat) (q : String × WHandler), j < i → routes[j]? = some q →
        parseMatch q.1 p = none) →
      find_handler routes p = some (h, bs)) :=
  ⟨find_handler_none_iff p routes,
   fun i pat h bs => find_handler_of_first p routes i pat h bs⟩

/-- C8 witness: two registered routes both able to match `/a` through the
placeholder route; the first-registered literal route `/b` fails on `/a`,
so the placeholder route is selected with its binding. -/
theorem find_handler_first_match_witness :
    find_handler
      [("/b", WHandler.func fun _ r _ => r),
       ("/\x7bx\x7d", WHandler.func fun _ r _ => { r with text := "x" })] "/a"
      = some (WHandler.func fun _ r _ => { r with text := "x" }, [("x", "a")]) := by
  refine (find_handler_first_match
    [("/b", WHandler.func fun _ r _ => r),
     ("/\x7bx\x7d", WHandler.func fun _ r _ => { r with text := "x" })] "/a").2
    1 "/\x7bx\x7d" _ _ (by simp) rfl ?_
  intro j q hj hq
  have hj0 : j = 0 := by omega
  subst hj0
  injection hq with heq
  rw [← heq]
  rfl

/-- C9: dispatch of a request whose path matches no registered route
produces the default response — status 404, body "Not Found" — with the
allocation counter untouched and no handler instance constructed. -/
theorem handle_request_not_found (routes : List (String × WHandler))
    (request : Request) (σ : Nat)
    (h : find_handler routes request.path = none) :
    handle_request routes request σ = ⟨.ok ⟨404, "Not Found"⟩, σ, none⟩ := by
  simp [handle_request, h, default_response]

/-- C9 witness: a request against the empty route table. -/
theorem handle_request_not_found_witness :
    handle_request [] ⟨"GET", "/nope"⟩ 3 = ⟨.ok ⟨404, "Not Found"⟩, 3, none⟩ :=
  handle_request_not_found [] ⟨"GET", "/nope"⟩ 3 rfl

theorem handle_request_alloc (routes : List (String × WHandler)) (request : Request)
    (σ i : Nat) (h : (handle_request routes request σ).instanceId = some i) :
    i = σ ∧ (handle_request routes request σ).nextId = σ + 1 := by
  cases hf : find_handler routes request.path with
  | none =>
    rw [handle_request_not_found routes request σ hf] at h
    exact Option.noConfusion h
  | some pr =>
    obtain ⟨handler, kwargs⟩ := pr
    cases handler with
    | func f =>
      simp [handle_request, hf] at h
    | cls ms =>
      cases hg : getMethod ms (strLower request.method) with
      | some f =>
        have he : handle_request routes request σ
            = ⟨.ok (f request {} kwargs), σ + 1, some σ⟩ := by
          simp [handle_request, hf, hg]
        rw [he] at h ⊢
        exact ⟨(Option.some.injEq _ _ ▸ h).symm, rfl⟩
      | none =>
        have he : handle_request routes request σ
            = ⟨.error (.methodNotAllowed request.method), σ + 1, some σ⟩ := by
          simp [handle_request, hf, hg]
        rw [he] at h ⊢
        exact ⟨(Option.some.injEq _ _ ▸ h).symm, rfl⟩

/-- C10: every dispatch whose matched handler is a class constructs a fresh
instance of it — modelled by the allocation counter `handle_request`
consumes — so two successive dispatches never share a handler instance. -/
theorem fresh_instance_per_request (routes : List (String × WHandler))
    (r1 r2 : Request) (σ : Nat) (i1 i2 : Nat)
    (h1 : (handle_request routes r1 σ).instanceId = some i1)
    (h2 : (handle_request routes r2 (handle_request routes r1 σ).nextId).instanceId
      = some i2) :
    i1 ≠ i2 := by
  obtain ⟨hi1, hn1⟩ := handle_request_alloc routes r1 σ i1 h1
  rw [hn1] at h2
  obtain ⟨hi2, -⟩ := handle_request_alloc routes r2 (σ + 1) i2 h2
  omega

/-- C10 witness: two GET dispatches against the class-based `/book` route,
receiving the distinct instance ids 0 and 1. -/
theorem fresh_instance_per_request_witness :
    (handle_request
        [("/book", WHandler.cls [("get", fun _ r _ => { r with text := "books" })])]
        ⟨"GET", "/book"⟩ 0).instanceId = some 0 ∧
    (0 : Nat) ≠ 1 :=
  ⟨rfl,
   fresh_instance_per_request
     [("/book", WHandler.cls [("get", fun _ r _ => { r with text := "books" })])]
     ⟨"GET", "/book"⟩ ⟨"GET", "/book"⟩ 0 0 1 rfl rfl⟩

/-- C3: registering an already-registered exact path through the WSGI
registration API fails with the duplicate-route error — the Python code
raises before touching the table, so the caller's route table is unchanged
— and the table built by the first registration still carries the first
handler. -/
theorem add_route_duplicate_rejected (routes routes2 : List (String × WHandler))
    (path : String) (h1 h2 : WHandler)
    (hok : add_route routes path h1 = .ok routes2) :
    add_route routes2 path h2 = .error (.duplicateRoute path) ∧
    (path, h1) ∈ routes2 := by
  unfold add_route at hok
  by_cases hdup : routes.any (fun r => r.1 == path) = true
  · rw [if_pos hdup] at hok
    exact Except.noConfusion hok
  · rw [if_neg hdup] at hok
    injection hok with hr2
    subst hr2
    constructor
    · have hany : (routes ++ [(path, h1)]).any (fun r => r.1 == path) = true := by
        simp
      unfold add_route
      rw [if_pos hany]
    · simp

/-- C3 witness: registering `/home` twice; the second registration fails
and the table of the first registration still holds the first handler. -/
theorem add_route_duplicate_rejected_witness :
    add_route [("/home", WHandler.func fun _ r _ => { r with text := "home" })] "/home"
        (WHandler.func fun _ r _ => r)
      = .error (.duplicateRoute "/home") ∧
    ("/home", WHandler.func fun _ r _ => { r with text := "home" })
      ∈ [("/home", WHandler.func fun _ r _ => { r with text := "home" })] :=
  add_route_duplicate_rejected []
    [("/home", WHandler.func fun _ r _ => { r with text := "home" })] "/home"
    (WHandler.func fun _ r _ => { r with text := "home" })
    (WHandler.func fun _ r _ => r) rfl

/-- C4: with debug disabled, a failing handler produces exactly the fixed
production response — status 500, body "Something ducky happened.", no
trace marker — and the response does not depend on which exception was
raised: any two failing dispatches yield identical output, so no failure
detail leaks. -/
theorem production_error_uniform (hs hs2 : ViewHandlers) (req req2 : Request)
    (m m2 : String)
    (h : dispatch hs req = .error (.exception m))
    (h2 : dispatch hs2 req2 = .error (.exception m2)) :
    baseViewCall false hs req = baseViewCall false hs2 req2 ∧
    baseViewCall false hs req
      = ([], .ok ⟨500, "Something ducky happened.", "text/plain"⟩) ∧
    containsStr "Traceback" "Something ducky happened." = false := by
  have e1 : baseViewCall false hs req
      = ([], .ok ⟨500, "Something ducky happened.", "text/plain"⟩) := by
    simp [baseViewCall, h]
  have e2 : baseViewCall false hs2 req2
      = ([], .ok ⟨500, "Something ducky happened.", "text/plain"⟩) := by
    simp [baseViewCall, h2]
  exact ⟨e1.trans e2.symm, e1, by decide⟩

/-- C4 witness: two views whose GET handlers raise different exceptions,
dispatched in production mode. -/
theorem production_error_uniform_witness :
    baseViewCall false [("get", fun _ => .error (.exception "boom"))] ⟨"GET", "/"⟩
      = ([], .ok ⟨500, "Something ducky happened.", "text/plain"⟩) :=
  (production_error_uniform
    [("get", fun _ => .error (.exception "boom"))]
    [("get", fun _ => .error (.exception "crash"))]
    ⟨"GET", "/"⟩ ⟨"GET", "/"⟩ "boom" "crash" rfl rfl).2.1

/-- C5: with debug enabled, a failing handler produces a 500 response whose
body — the rendered error page — contains both the original exception's
message and the "Traceback" trace marker. -/
theorem debug_error_contains_trace (hs : ViewHandlers) (req : Request) (m : String)
    (h : dispatch hs req = .error (.exception m)) :
    baseViewCall true hs req
      = ([], .ok ⟨500, renderErrorTemplate (format_exc m), "text/html"⟩) ∧
    containsStr m (renderErrorTemplate (format_exc m)) = true ∧
    containsStr "Traceback" (renderErrorTemplate (format_exc m)) = true := by
  refine ⟨by simp [baseViewCall, h], ?_, ?_⟩
  · show containsL m.data (renderErrorTemplate (format_exc m)).data = true
    have hd : (renderErrorTemplate (format_exc m)).data
        = ("<h1>Error</h1><pre>".data ++ "Traceback (most recent call last):\n".data)
          ++ m.data ++ ("\n".data ++ "</pre>".data) := by
      show ("<h1>Error</h1><pre>" ++ ("Traceback (most recent call last):\n" ++ m ++ "\n")
          ++ "</pre>").data = _
      simp [data_append]
    rw [hd]
    exact containsL_append m.data _ _
  · show containsL "Traceback".data (renderErrorTemplate (format_exc m)).data = true
    have hd : (renderErrorTemplate (format_exc m)).data
        = "<h1>Error</h1><pre>".data ++ "Traceback".data
          ++ (" (most recent call last):\n".data ++ m.data ++ "\n".data ++ "</pre>".data) := by
      show ("<h1>Error</h1><pre>" ++ ("Traceback (most recent call last):\n" ++ m ++ "\n")
          ++ "</pre>").data = _
      simp [data_append]
    rw [hd]
    exact containsL_append "Traceback".data _ _

/-- C5 witness: a view whose GET handler raises, dispatched in debug mode. -/
theorem debug_error_contains_trace_witness :
    baseViewCall true [("get", fun _ => .error (.exception "boom"))] ⟨"GET", "/"⟩
      = ([], .ok ⟨500, renderErrorTemplate (format_exc "boom"), "text/html"⟩) ∧
    containsStr "boom" (renderErrorTemplate (format_exc "boom")) = true ∧
    containsStr "Traceback" (renderErrorTemplate (format_exc "boom")) = true :=
  debug_error_contains_trace [("get", fun _ => .error (.exception "boom"))]
    ⟨"GET", "/"⟩ "boom" rfl

/-- C6: the error boundary logs the two process-termination signals and
re-raises them unchanged, in debug and production mode alike; they are
never converted into an HTTP response. -/
theorem termination_signals_reraised (debug : Bool) (hs : ViewHandlers)
    (req : Request) :
    (dispatch hs req = .error .keyboardInterrupt →
      baseViewCall debug hs req
        = (["Application stopped by user."], .error .keyboardInterrupt)) ∧
    (dispatch hs req = .error .systemExit →
      baseViewCall debug hs req
        = (["Application stopped by user."], .error .systemExit)) := by
  constructor
  · intro h
    simp [baseViewCall, h]
  · intro h
    simp [baseViewCall, h]

/-- C6 witness: handlers raising the interrupt and exit signals, under both
debug settings. -/
theorem termination_signals_reraised_witness :
    baseViewCall true [("get", fun _ => .error .keyboardInterrupt)] ⟨"GET", "/"⟩
      = (["Application stopped by user."], .error .keyboardInterrupt) ∧
    baseViewCall false [("get", fun _ => .error .systemExit)] ⟨"GET", "/"⟩
      = (["Application stopped by user."], .error .systemExit) :=
  ⟨(termination_signals_reraised true [("get", fun _ => .error .keyboardInterrupt)]
      ⟨"GET", "/"⟩).1 rfl,
   (termination_signals_reraised false [("get", fun _ => .error .systemExit)]
      ⟨"GET", "/"⟩).2 rfl⟩

/-- C1 (amended): only the asynchronous front end turns an unsupported
method into a response: `BaseView.dispatch` answers status 405 with body
"Method Not Allowed" and never raises.  The WSGI front end instead raises:
when the matched handler is a class without an operation named after the
lowercased request method, `handle_request` raises an `AttributeError`
(message "Method now allowed") carrying the request's method to its caller
and produces no 405 response. -/
theorem method_not_allowed_amended :
    (∀ (hs : ViewHandlers) (req : Request),
      hs.find? (fun h => h.1 == strLower req.method) = none →
      dispatch hs req = .ok ⟨405, METHOD_NOT_ALLOWED_MESSAGE, "text/plain"⟩) ∧
    (∀ (routes : List (String × WHandler)) (req : Request)
      (ms : List (String × (Request → Response → List (String × String) → Response)))
      (bs : List (String × String)) (σ : Nat),
      find_handler routes req.path = some (.cls ms, bs) →
      getMethod ms (strLower req.method) = none →
      handle_request routes req σ
        = ⟨.error (.methodNotAllowed req.method), σ + 1, some σ⟩) := by
  constructor
  · intro hs req h
    simp [dispatch, h]
  · intro routes req ms bs σ hf hg
    simp [handle_request, hf, hg]

/-- C1 counterexample: the WSGI front end dispatching PUT to a registered
class-based route that only implements `get`.  The dispatch result is the
raised method-not-allowed error — the condition reaches the caller of
`handle_request` as an exception instead of becoming a 405 response. -/
theorem wsgi_method_not_allowed_raises_cex :
    (handle_request
        [("/book", WHandler.cls [("get", fun _ r _ => { r with text := "books" })])]
        ⟨"PUT", "/book"⟩ 0).result
      = .error (.methodNotAllowed "PUT") := rfl

/-- C1 witness: the async dispatcher answering 405 for PUT on a GET-only
view, and the WSGI dispatcher raising for DELETE on a GET-only class
route. -/
theorem method_not_allowed_amended_witness :
    dispatch [("get", fun _ => .ok ⟨200, "ok", "text/plain"⟩)] ⟨"PUT", "/"⟩
      = .ok ⟨405, METHOD_NOT_ALLOWED_MESSAGE, "text/plain"⟩ ∧
    handle_request [("/b", WHandler.cls [("get", fun _ r _ => r)])] ⟨"DELETE", "/b"⟩ 5
      = ⟨.error (.methodNotAllowed "DELETE"), 6, some 5⟩ :=
  ⟨method_not_allowed_amended.1 [("get", fun _ => .ok ⟨200, "ok", "text/plain"⟩)]
      ⟨"PUT", "/"⟩ rfl,
   method_not_allowed_amended.2 [("/b", WHandler.cls [("get", fun _ r _ => r)])]
      ⟨"DELETE", "/b"⟩ [("get", fun _ r _ => r)] [] 5 rfl rfl⟩
